import Mathlib

/-!
Shallow embedding of the movie-engine hybrid recommendation pipeline
(backend/core/recommender.py, backend/core/tmdb_service.py,
backend/core/semantic_search.py).

External collaborators (Qdrant, Neo4j, the TMDB HTTP API) are modelled as
oracle functions passed in as parameters; the Python code under scrutiny —
the dedup loops of Recommender.recommend, the candidate construction of
_search_qdrant and _expand_via_neo4j, TMDBService.enrich_movies and
TMDBService.get_trending_movies — is translated line by line.  Python
dictionaries become the Candidate structure; a key that may be absent is an
outer Option (poster_url and imdb_url are absent before enrichment and
present, possibly with value None, afterwards).  Python floats are modelled
as rationals; the builtin round uses round-half-to-even, embedded as rne.
-/

namespace MovieEngine

/-- Python truthiness of an optional string: None and the empty string are
falsy, used for checks of the form: if movie.get("title"). -/
def strTruthy : Option String → Bool
  | none => false
  | some s => s != ""

/-- A recommendation candidate: the dict built by the pipeline.
poster_url and imdb_url are doubly optional: the outer Option records
whether the key is present in the dict at all, the inner one its value
(None in Python is the inner none). -/
structure Candidate where
  title : Option String
  genre : Option String
  director : Option String
  year : Option String
  score : Option ℚ
  source : String
  poster_url : Option (Option String) := none
  imdb_url : Option (Option String) := none
  deriving Repr, DecidableEq

/-- Round half to even (Python builtin round semantics on exact values). -/
def rne (x : ℚ) : ℤ :=
  if x - ⌊x⌋ < 1/2 then ⌊x⌋
  else if 1/2 < x - ⌊x⌋ then ⌊x⌋ + 1
  else if ⌊x⌋ % 2 = 0 then ⌊x⌋ else ⌊x⌋ + 1

/-- Python round(x, 4) on an exact rational value. -/
def round4 (x : ℚ) : ℚ := (rne (x * 10000) : ℚ) / 10000

/-- One raw hit returned by SemanticSearch.search: the Qdrant payload
fields plus the similarity score (semantic_search.py, lines 119-128). -/
structure SearchHit where
  title : Option String
  genre : Option String
  director : Option String
  year : Option String
  score : ℚ
  deriving Repr, DecidableEq

/-- Recommender._search_qdrant (recommender.py, lines 41-58): re-formats
the raw hits into candidates with source "vector" and the score rounded
to 4 decimal places. -/
def search_qdrant (hits : List SearchHit) : List Candidate :=
  hits.map fun hit =>
    { title := hit.title, genre := hit.genre, director := hit.director,
      year := hit.year, score := some (round4 hit.score), source := "vector" }

/-- One raw record of the Neo4j expansion query: title, genre, year
(recommender.py, lines 89-93). -/
structure GraphRecord where
  title : Option String
  genre : Option String
  year : Option String
  deriving Repr, DecidableEq

/-- The list comprehension of Recommender._expand_via_neo4j
(recommender.py, lines 99-108): each record becomes a candidate with
score None and source "graph"; the dict has no director key. -/
def expandRecords (recs : List GraphRecord) : List Candidate :=
  recs.map fun r =>
    { title := r.title, genre := r.genre, director := none,
      year := r.year, score := none, source := "graph" }

/-- Recommender._expand_via_neo4j (recommender.py, lines 60-111): runs the
graph query (modelled as an oracle that either yields records or raises)
and catches any exception, returning the empty list in that case. -/
def expand_via_neo4j (runQuery : String → Except String (List GraphRecord))
    (movieTitle : String) : List Candidate :=
  match runQuery movieTitle with
  | Except.ok recs => expandRecords recs
  | Except.error _ => []

/-- One step of the dedup loops of Recommender.recommend (lines 133-137 and
150-153): the state is the seen-titles set (as a list) and the accumulated
candidate list; a candidate is appended iff its title is truthy and unseen. -/
def addCand (p : List String × List Candidate) (movie : Candidate) :
    List String × List Candidate :=
  match movie.title with
  | none => p
  | some t =>
    if t = "" then p
    else if t ∈ p.1 then p
    else (t :: p.1, p.2 ++ [movie])

/-- Folding addCand over a list of candidates: one of the for-loops of
Recommender.recommend. -/
def addList (p : List String × List Candidate) (ms : List Candidate) :
    List String × List Candidate :=
  ms.foldl addCand p

/-- The truthy title of a candidate, if any: models
primary_title = vector_movie.get("title"); if not primary_title: continue
(recommender.py, lines 141-143). -/
def seedTitle (m : Candidate) : Option String :=
  match m.title with
  | none => none
  | some t => if t = "" then none else some t

/-- The graph-expansion loop of Recommender.recommend (lines 140-153): for
each vector result with a truthy title, expand it and append the new
results through the shared dedup state. -/
def expandPhase (expand : String → List Candidate) (vec : List Candidate)
    (p : List String × List Candidate) : List String × List Candidate :=
  vec.foldl (fun q vm =>
    match seedTitle vm with
    | none => q
    | some t => addList q (expand t)) p

/-- The pre-enrichment candidate list built by Recommender.recommend
(lines 128-153): seed the dedup state with the vector results, then run the
graph-expansion loop, and read off the combined list. -/
def combinedOf (vec : List Candidate) (expand : String → List Candidate) :
    List Candidate :=
  (expandPhase expand vec (addList ([], []) vec)).2

/-- Recommender.recommend (recommender.py, lines 113-160), with the vector
stage result, the per-seed graph expansion and the enrichment call as
parameters: if the vector stage is empty, return the empty list at once;
otherwise build the combined list and enrich it. -/
def recommend (vec : List Candidate) (expand : String → List Candidate)
    (enrich : List Candidate → List Candidate) : List Candidate :=
  if vec.isEmpty then [] else enrich (combinedOf vec expand)

/-- The graph-expansion loop instrumented with the list of seed titles on
which the expansion oracle is actually invoked (one entry per call). -/
def expandPhaseTraced (expand : String → List Candidate) :
    List Candidate → List String × List Candidate → List String →
    (List String × List Candidate) × List String
  | [], p, calls => (p, calls)
  | vm :: rest, p, calls =>
    match seedTitle vm with
    | none => expandPhaseTraced expand rest p calls
    | some t => expandPhaseTraced expand rest (addList p (expand t)) (calls ++ [t])

/-- Recommender.recommend instrumented with its observable calls: the
result list, the titles passed to graph expansion (in call order), and the
number of enrichment calls.  The early return on an empty vector stage
(lines 124-126) happens before either loop and before enrichment. -/
def recommendTraced (vec : List Candidate) (expand : String → List Candidate)
    (enrich : List Candidate → List Candidate) :
    List Candidate × List String × Nat :=
  if vec.isEmpty then ([], [], 0)
  else
    let p := addList ([], []) vec
    let q := expandPhaseTraced expand vec p []
    (enrich q.1.2, q.2, 1)

/-- Modelled from the spec: an ordered, title-keyed dedup collection — the
first candidate with a given (non-empty) title wins, insertion order is
preserved, and candidates without a usable title cannot be keyed. -/
def dedupByTitleAux (seen : List String) : List Candidate → List Candidate
  | [] => []
  | m :: rest =>
    match seedTitle m with
    | none => dedupByTitleAux seen rest
    | some t =>
      if t ∈ seen then dedupByTitleAux seen rest
      else m :: dedupByTitleAux (t :: seen) rest

/-- Modelled from the spec: dedup by title, first occurrence wins. -/
def dedupByTitle (ms : List Candidate) : List Candidate := dedupByTitleAux [] ms

/-- Modelled from the spec ordering guarantee: all vector-stage candidates
first in index rank order, then each seed's expansion results in seed
order and within-traversal order, any title already present skipped. -/
def specCombined (vec : List Candidate) (expand : String → List Candidate) :
    List Candidate :=
  dedupByTitle (vec ++ (vec.filterMap seedTitle).flatMap expand)

/-! Enrichment: TMDBService (tmdb_service.py). -/

/-- The fields of a TMDB search match used by the service: poster_path and
the provider id. -/
structure TMDBMatch where
  poster_path : Option String
  id : Option Nat
  deriving Repr, DecidableEq

def poster_base_url : String := "https://image.tmdb.org/t/p/w500"

def imdb_base_url : String := "https://www.imdb.com/title/"

/-- TMDBService._get_imdb_id (tmdb_service.py, lines 86-102): returns None
when the api key or the tmdb id is falsy; otherwise asks the details
endpoint (an oracle returning the imdb_id field, or None on error or when
the field is absent). -/
def get_imdb_id (apiKey : Option String) (details : Nat → Option String) :
    Option Nat → Option String
  | none => none
  | some n =>
    if strTruthy apiKey = false then none
    else if n = 0 then none
    else details n

/-- The loop body of TMDBService.enrich_movies (tmdb_service.py, lines
112-135): look the movie up; on a match set poster_url from a truthy
poster_path (else None) and imdb_url from a truthy imdb id (else None);
on no match set both keys to None. -/
def enrichStep (apiKey : Option String)
    (searchMovie : Option String → Option String → Option TMDBMatch)
    (details : Nat → Option String) (movie : Candidate) : Candidate :=
  match searchMovie movie.title movie.year with
  | some tmdbData =>
    let posterVal : Option String :=
      match tmdbData.poster_path with
      | some p => if p = "" then none else some (poster_base_url ++ p)
      | none => none
    let imdbVal : Option String :=
      match get_imdb_id apiKey details tmdbData.id with
      | some i => if i = "" then none else some (imdb_base_url ++ i)
      | none => none
    { movie with poster_url := some posterVal, imdb_url := some imdbVal }
  | none => { movie with poster_url := some none, imdb_url := some none }

/-- TMDBService.enrich_movies (tmdb_service.py, lines 104-137): with a
falsy api key the input list is returned unchanged; otherwise each movie
is enriched in order. -/
def enrich_movies (apiKey : Option String)
    (searchMovie : Option String → Option String → Option TMDBMatch)
    (details : Nat → Option String) (movies : List Candidate) : List Candidate :=
  if strTruthy apiKey = false then movies
  else movies.map (enrichStep apiKey searchMovie details)

/-- One raw entry of the TMDB trending response used by
get_trending_movies. -/
structure TrendingEntry where
  id : Option Nat
  title : Option String
  release_date : Option String
  poster_path : Option String
  vote_average : Option ℚ
  deriving Repr, DecidableEq

/-- Python expression: s.split("-")[0]. -/
def splitYear (s : String) : String := (s.splitOn "-").headD s

/-- TMDBService.get_trending_movies (tmdb_service.py, lines 21-56): with a
falsy api key, or when the provider request raises (fetchResults = none),
the empty list; otherwise the first limit entries are mapped to candidates
with genre "Trending", source "trending" and score set to the entry's
vote_average. -/
def get_trending_movies (apiKey : Option String) (details : Nat → Option String)
    (fetchResults : Option (List TrendingEntry)) (limit : Nat) : List Candidate :=
  if strTruthy apiKey = false then []
  else
    match fetchResults with
    | none => []
    | some tmdbResults =>
      (tmdbResults.take limit).map fun movie =>
        let imdbId := get_imdb_id apiKey details movie.id
        let posterVal : Option String :=
          match movie.poster_path with
          | some p => if p = "" then none else some (poster_base_url ++ p)
          | none => none
        let imdbVal : Option String :=
          match imdbId with
          | some i => if i = "" then none else some (imdb_base_url ++ i)
          | none => none
        { title := movie.title, genre := some "Trending", director := none,
          year := some (splitYear (movie.release_date.getD "N/A")),
          score := movie.vote_average, source := "trending",
          poster_url := some posterVal, imdb_url := some imdbVal }

/-- The candidate fields that enrichment must not touch: everything except
poster_url and imdb_url. -/
def coreFields (c : Candidate) :
    Option String × Option String × Option String × Option String ×
    Option ℚ × String :=
  (c.title, c.genre, c.director, c.year, c.score, c.source)

/-- Erase the enrichment keys: used to compare candidates modulo the
fields enrichment is allowed to write. -/
def stripEnrichment (c : Candidate) : Candidate :=
  { c with poster_url := none, imdb_url := none }

/-! Structural lemmas about the dedup machinery of Recommender.recommend. -/

theorem addList_append (p : List String × List Candidate)
    (xs ys : List Candidate) :
    addList p (xs ++ ys) = addList (addList p xs) ys := by
  simp [addList, List.foldl_append]

theorem expandPhase_cons (expand : String → List Candidate) (vm : Candidate)
    (rest : List Candidate) (p : List String × List Candidate) :
    expandPhase expand (vm :: rest) p =
      expandPhase expand rest
        (match seedTitle vm with
         | none => p
         | some t => addList p (expand t)) := rfl

theorem expandPhase_eq_addList (expand : String → List Candidate)
    (vec : List Candidate) :
    ∀ p, expandPhase expand vec p =
      addList p ((vec.filterMap seedTitle).flatMap expand) := by
  induction vec with
  | nil => intro p; rfl
  | cons vm rest ih =>
    intro p
    rw [expandPhase_cons]
    cases h : seedTitle vm with
    | none => simp [h, List.filterMap_cons, ih]
    | some t =>
      simp only [h, List.filterMap_cons, List.flatMap_cons]
      rw [addList_append, ih]

theorem addList_eq_dedupAux (ms : List Candidate) :
    ∀ seen acc, (addList (seen, acc) ms).2 = acc ++ dedupByTitleAux seen ms := by
  induction ms with
  | nil => intro seen acc; simp [addList, dedupByTitleAux]
  | cons m rest ih =>
    intro seen acc
    show (addList (addCand (seen, acc) m) rest).2 = _
    cases h : m.title with
    | none => simp [addCand, h, dedupByTitleAux, seedTitle, ih]
    | some t =>
      by_cases he : t = ""
      · simp [addCand, h, he, dedupByTitleAux, seedTitle, ih]
      · by_cases hs : t ∈ seen
        · simp [addCand, h, he, hs, dedupByTitleAux, seedTitle, ih]
        · simp [addCand, h, he, hs, dedupByTitleAux, seedTitle, ih]

/-- The combined pre-enrichment list built by the two dedup loops equals the
spec-side description: title-keyed first-wins dedup of the vector results
followed by the concatenated per-seed expansions. -/
theorem combinedOf_eq_spec (vec : List Candidate)
    (expand : String → List Candidate) :
    combinedOf vec expand = specCombined vec expand := by
  unfold combinedOf specCombined dedupByTitle
  rw [expandPhase_eq_addList, ← addList_append, addList_eq_dedupAux]
  simp

theorem title_of_seedTitle {m : Candidate} {t : String}
    (h : seedTitle m = some t) : m.title = some t := by
  cases hm : m.title with
  | none => simp [seedTitle, hm] at h
  | some u =>
    by_cases he : u = ""
    · simp [seedTitle, hm, he] at h
    · simp [seedTitle, hm, he] at h
      rw [h]

theorem dedupAux_sub (seen : List String) (ms : List Candidate) (c : Candidate) :
    c ∈ dedupByTitleAux seen ms → c ∈ ms := by
  induction ms generalizing seen with
  | nil => intro hc; simp [dedupByTitleAux] at hc
  | cons m rest ih =>
    intro hc
    cases h : seedTitle m with
    | none =>
      simp only [dedupByTitleAux, h] at hc
      exact List.mem_cons_of_mem _ (ih seen hc)
    | some t =>
      by_cases hs : t ∈ seen
      · simp only [dedupByTitleAux, h, if_pos hs] at hc
        exact List.mem_cons_of_mem _ (ih seen hc)
      · simp only [dedupByTitleAux, h, if_neg hs] at hc
        rcases List.mem_cons.mp hc with h1 | h2
        · exact h1 ▸ List.mem_cons_self _ _
        · exact List.mem_cons_of_mem _ (ih _ h2)

theorem dedupAux_titles (ms : List Candidate) : ∀ seen,
    (∀ c ∈ dedupByTitleAux seen ms, ∃ t, seedTitle c = some t ∧ t ∉ seen) ∧
    (dedupByTitleAux seen ms).Pairwise (fun a b => a.title ≠ b.title) := by
  induction ms with
  | nil => intro seen; simp [dedupByTitleAux]
  | cons m rest ih =>
    intro seen
    cases h : seedTitle m with
    | none => simpa [dedupByTitleAux, h] using ih seen
    | some t =>
      by_cases hs : t ∈ seen
      · simpa [dedupByTitleAux, h, hs] using ih seen
      · simp only [dedupByTitleAux, h, if_neg hs]
        constructor
        · intro c hc
          rcases List.mem_cons.mp hc with rfl | hc2
          · exact ⟨t, h, hs⟩
          · obtain ⟨t2, ht2, hnt2⟩ := (ih (t :: seen)).1 c hc2
            exact ⟨t2, ht2, fun hmem => hnt2 (List.mem_cons_of_mem _ hmem)⟩
        · refine List.Pairwise.cons ?_ (ih (t :: seen)).2
          intro b hb
          obtain ⟨t2, ht2, hnt2⟩ := (ih (t :: seen)).1 b hb
          have hne : t2 ≠ t := fun e => hnt2 (e ▸ List.mem_cons_self _ _)
          rw [title_of_seedTitle h, title_of_seedTitle ht2]
          exact fun e => hne (by injection e with e2; exact e2.symm)

theorem dedupAux_ne_nil (ms : List Candidate) : ∀ (seen : List String)
    (m : Candidate) (t : String), m ∈ ms → seedTitle m = some t → t ∉ seen →
    dedupByTitleAux seen ms ≠ [] := by
  induction ms with
  | nil => intro seen m t hm _ _; simp at hm
  | cons m0 rest ih =>
    intro seen m t hm ht hs
    cases h0 : seedTitle m0 with
    | none =>
      have hm2 : m ∈ rest := by
        rcases List.mem_cons.mp hm with rfl | hr
        · rw [h0] at ht; exact absurd ht (by simp)
        · exact hr
      simpa [dedupByTitleAux, h0] using ih seen m t hm2 ht hs
    | some t0 =>
      by_cases h0s : t0 ∈ seen
      · have hm2 : m ∈ rest := by
          rcases List.mem_cons.mp hm with rfl | hr
          · rw [h0] at ht
            injection ht with e
            exact absurd (e ▸ h0s) hs
          · exact hr
        simpa [dedupByTitleAux, h0, h0s] using ih seen m t hm2 ht hs
      · simp [dedupByTitleAux, h0, h0s]

theorem combinedOf_pairwise (vec : List Candidate)
    (expand : String → List Candidate) :
    (combinedOf vec expand).Pairwise (fun a b => a.title ≠ b.title) := by
  rw [combinedOf_eq_spec]
  exact (dedupAux_titles _ _).2

theorem combinedOf_ne_nil (vec : List Candidate)
    (expand : String → List Candidate) (m : Candidate) (t : String)
    (hm : m ∈ vec) (ht : seedTitle m = some t) :
    combinedOf vec expand ≠ [] := by
  rw [combinedOf_eq_spec]
  unfold specCombined dedupByTitle
  exact dedupAux_ne_nil _ [] m t (List.mem_append_left _ hm) ht (by simp)

theorem combinedOf_mem (vec : List Candidate) (expand : String → List Candidate)
    (c : Candidate) (hc : c ∈ combinedOf vec expand) :
    c ∈ vec ++ (vec.filterMap seedTitle).flatMap expand := by
  rw [combinedOf_eq_spec] at hc
  exact dedupAux_sub _ _ _ hc

/-! Lemmas about enrichment. -/

theorem coreFields_enrichStep (k : Option String)
    (s : Option String → Option String → Option TMDBMatch)
    (d : Nat → Option String) (m : Candidate) :
    coreFields (enrichStep k s d m) = coreFields m := by
  cases hm : s m.title m.year <;> simp [enrichStep, hm, coreFields]

theorem enrich_map_coreFields (k : Option String)
    (s : Option String → Option String → Option TMDBMatch)
    (d : Nat → Option String) (ms : List Candidate) :
    (enrich_movies k s d ms).map coreFields = ms.map coreFields := by
  unfold enrich_movies
  by_cases hk : strTruthy k = false
  · simp [hk]
  · rw [if_neg hk, List.map_map]
    exact List.map_congr_left fun m _ => coreFields_enrichStep k s d m

theorem enrich_length (k : Option String)
    (s : Option String → Option String → Option TMDBMatch)
    (d : Nat → Option String) (ms : List Candidate) :
    (enrich_movies k s d ms).length = ms.length := by
  unfold enrich_movies
  split <;> simp

theorem enrich_mem (k : Option String)
    (s : Option String → Option String → Option TMDBMatch)
    (d : Nat → Option String) (ms : List Candidate) (c : Candidate)
    (hc : c ∈ enrich_movies k s d ms) :
    ∃ c2 ∈ ms, coreFields c = coreFields c2 := by
  unfold enrich_movies at hc
  split at hc
  · exact ⟨c, hc, rfl⟩
  · obtain ⟨a, ha, rfl⟩ := List.mem_map.mp hc
    exact ⟨a, ha, coreFields_enrichStep k s d a⟩

theorem title_of_coreFields {a b : Candidate}
    (h : coreFields a = coreFields b) : a.title = b.title :=
  congrArg (fun x => x.1) h

theorem score_of_coreFields {a b : Candidate}
    (h : coreFields a = coreFields b) : a.score = b.score :=
  congrArg (fun x => x.2.2.2.2.1) h

theorem source_of_coreFields {a b : Candidate}
    (h : coreFields a = coreFields b) : a.source = b.source :=
  congrArg (fun x => x.2.2.2.2.2) h

/-! Numeric lemmas about the rounding function. -/

theorem floor_le_rne (x : ℚ) : ⌊x⌋ ≤ rne x := by
  unfold rne
  split
  · exact le_refl _
  · split
    · omega
    · split
      · exact le_refl _
      · omega

theorem le_rne {x : ℚ} {B : ℤ} (h : (B : ℚ) ≤ x) : B ≤ rne x := by
  have hf : B ≤ ⌊x⌋ := Int.le_floor.mpr h
  have := floor_le_rne x
  omega

theorem rne_le {x : ℚ} {B : ℤ} (h : x ≤ (B : ℚ)) : rne x ≤ B := by
  have hf : ⌊x⌋ ≤ B := by
    have h2 := Int.floor_le_floor h
    simpa using h2
  have hf1 : ¬ (x - ⌊x⌋ < 1/2) → ⌊x⌋ + 1 ≤ B := by
    intro hge
    push_neg at hge
    have hfl : (⌊x⌋ : ℚ) ≤ x := Int.floor_le x
    have hlt : (⌊x⌋ : ℚ) < (B : ℚ) := by linarith
    have hzlt : ⌊x⌋ < B := by exact_mod_cast hlt
    omega
  by_cases h1 : x - ⌊x⌋ < 1/2
  · simp only [rne, if_pos h1]; exact hf
  · by_cases h2 : 1/2 < x - ⌊x⌋
    · simp only [rne, if_neg h1, if_pos h2]; exact hf1 h1
    · by_cases h3 : ⌊x⌋ % 2 = 0
      · simp only [rne, if_neg h1, if_neg h2, if_pos h3]; exact hf
      · simp only [rne, if_neg h1, if_neg h2, if_neg h3]; exact hf1 h1

theorem round4_bounds {x : ℚ} (h1 : -1 ≤ x) (h2 : x ≤ 1) :
    -1 ≤ round4 x ∧ round4 x ≤ 1 := by
  have hu : rne (x * 10000) ≤ (10000 : ℤ) := rne_le (by push_cast; linarith)
  have hl : (-10000 : ℤ) ≤ rne (x * 10000) := le_rne (by push_cast; linarith)
  have huq : (rne (x * 10000) : ℚ) ≤ 10000 := by exact_mod_cast hu
  have hlq : (-10000 : ℚ) ≤ (rne (x * 10000) : ℚ) := by exact_mod_cast hl
  unfold round4
  constructor <;> [linarith; linarith]

theorem round4_den (x : ℚ) : ∃ n : ℤ, round4 x = (n : ℚ) / 10000 :=
  ⟨rne (x * 10000), rfl⟩

/-! Further helper lemmas. -/

theorem rne_intCast (n : ℤ) : rne (n : ℚ) = n := by
  unfold rne
  rw [Int.floor_intCast]
  simp

theorem round4_91 : round4 (91/100) = 91/100 := by
  unfold round4
  have h : (91/100 : ℚ) * 10000 = ((9100 : ℤ) : ℚ) := by norm_num
  rw [h, rne_intCast]
  norm_num

theorem round4_87 : round4 (87/100) = 87/100 := by
  unfold round4
  have h : (87/100 : ℚ) * 10000 = ((8700 : ℤ) : ℚ) := by norm_num
  rw [h, rne_intCast]
  norm_num

theorem expandPhaseTraced_fst (expand : String → List Candidate)
    (vec : List Candidate) :
    ∀ p calls, (expandPhaseTraced expand vec p calls).1 = expandPhase expand vec p := by
  induction vec with
  | nil => intro p calls; rfl
  | cons vm rest ih =>
    intro p calls
    rw [expandPhase_cons]
    cases h : seedTitle vm with
    | none => simp only [expandPhaseTraced, h]; exact ih p calls
    | some t => simp only [expandPhaseTraced, h]; exact ih _ _

/-- The instrumented pipeline computes the same result list as the plain
embedding of Recommender.recommend. -/
theorem recommendTraced_fst (vec : List Candidate)
    (expand : String → List Candidate) (enrich : List Candidate → List Candidate) :
    (recommendTraced vec expand enrich).1 = recommend vec expand enrich := by
  unfold recommendTraced recommend
  split
  · rfl
  · simp only []
    rw [expandPhaseTraced_fst]
    rfl

theorem expand_graph_fields (runQuery : String → Except String (List GraphRecord))
    (t : String) (c : Candidate) (hc : c ∈ expand_via_neo4j runQuery t) :
    c.score = none ∧ c.source = "graph" := by
  unfold expand_via_neo4j at hc
  split at hc
  · unfold expandRecords at hc
    obtain ⟨r, _, rfl⟩ := List.mem_map.mp hc
    exact ⟨rfl, rfl⟩
  · simp at hc

theorem coreFields_get_of_map_eq : ∀ (l1 l2 : List Candidate),
    l1.map coreFields = l2.map coreFields →
    ∀ i (h1 : i < l1.length) (h2 : i < l2.length),
      coreFields (l1.get ⟨i, h1⟩) = coreFields (l2.get ⟨i, h2⟩) := by
  intro l1
  induction l1 with
  | nil => intro l2 h i h1 h2; simp at h1
  | cons a t ih =>
    intro l2 h i h1 h2
    cases l2 with
    | nil => simp at h
    | cons b t2 =>
      simp only [List.map_cons, List.cons.injEq] at h
      cases i with
      | zero => exact h.1
      | succ j => exact ih t2 h.2 j (by simpa using h1) (by simpa using h2)

/-! Concrete inputs used by witnesses and counterexamples: the scenario of
spec section 8 (Inception / Interstellar / Tenet) and a few degenerate
inputs. -/

def hitInception : SearchHit :=
  { title := some "Inception", genre := some "Sci-Fi",
    director := some "Christopher Nolan", year := some "2010", score := 91/100 }

def hitInterstellar : SearchHit :=
  { title := some "Interstellar", genre := some "Sci-Fi",
    director := some "Christopher Nolan", year := some "2014", score := 87/100 }

def recordTenet : GraphRecord :=
  { title := some "Tenet", genre := some "Sci-Fi", year := some "2020" }

def recordInception : GraphRecord :=
  { title := some "Inception", genre := some "Sci-Fi", year := some "2010" }

def scenarioRunQuery : String → Except String (List GraphRecord) := fun t =>
  if t = "Inception" then Except.ok [recordTenet]
  else if t = "Interstellar" then Except.ok [recordInception]
  else Except.ok []

def scenarioVec : List Candidate := search_qdrant [hitInception, hitInterstellar]

def candInceptionV : Candidate :=
  { title := some "Inception", genre := some "Sci-Fi",
    director := some "Christopher Nolan", year := some "2010",
    score := some (round4 (91/100)), source := "vector" }

def candInterstellarV : Candidate :=
  { title := some "Interstellar", genre := some "Sci-Fi",
    director := some "Christopher Nolan", year := some "2014",
    score := some (round4 (87/100)), source := "vector" }

def candTenetG : Candidate :=
  { title := some "Tenet", genre := some "Sci-Fi", director := none,
    year := some "2020", score := none, source := "graph" }

def candUntitled : Candidate :=
  { title := none, genre := some "Mystery", director := none,
    year := some "2001", score := some (1/2), source := "vector" }

def trendingDune : TrendingEntry :=
  { id := some 438631, title := some "Dune", release_date := some "2021-10-22",
    poster_path := some "/dune.jpg", vote_average := some (8 : ℚ) }

def failingRunQuery : String → Except String (List GraphRecord) := fun t =>
  if t = "X" then Except.error "connection refused" else Except.ok [recordTenet]

/-! The claims. -/

/-- C1 (amended): for every query whose vector stage yields at least one
result with a usable (non-empty, non-null) title, the list returned by
Recommender.recommend contains no two candidates with the same title and
is non-empty.  The claim as frozen fails when no vector result has a
truthy title, because such results are dropped by the title-keyed dedup
(see the counterexample). -/
theorem C1_amended_title_dedup (vec : List Candidate)
    (expand : String → List Candidate) (k : Option String)
    (s : Option String → Option String → Option TMDBMatch)
    (d : Nat → Option String) (m : Candidate) (t : String)
    (hm : m ∈ vec) (ht : seedTitle m = some t) :
    (recommend vec expand (enrich_movies k s d)).Pairwise
      (fun a b => a.title ≠ b.title) ∧
    recommend vec expand (enrich_movies k s d) ≠ [] := by
  have hvne : vec.isEmpty = false := by
    cases vec
    · simp at hm
    · rfl
  have hif : recommend vec expand (enrich_movies k s d) =
      enrich_movies k s d (combinedOf vec expand) := by
    unfold recommend
    rw [hvne]
    rfl
  rw [hif]
  constructor
  · have h1 := combinedOf_pairwise vec expand
    have h3 : ((combinedOf vec expand).map coreFields).Pairwise
        (fun a b => a.1 ≠ b.1) := List.pairwise_map.mpr h1
    rw [← enrich_map_coreFields k s d (combinedOf vec expand)] at h3
    have h4 := List.pairwise_map.mp h3
    exact h4
  · intro hnil
    have hlen := enrich_length k s d (combinedOf vec expand)
    rw [hnil] at hlen
    exact combinedOf_ne_nil vec expand m t hm ht
      (List.length_eq_zero.mp hlen.symm)

/-- C1 counterexample: the vector stage yields one result, but its title is
missing, so Recommender.recommend returns the empty list — the returned
list is not non-empty as the claim states. -/
theorem C1_counterexample :
    ([candUntitled] : List Candidate) ≠ [] ∧
    recommend [candUntitled] (fun _ => [])
      (enrich_movies none (fun _ _ => none) (fun _ => none)) = [] :=
  ⟨List.cons_ne_nil _ _, rfl⟩

/-- Witness for C1: the amended theorem applied to a one-element titled
vector stage. -/
theorem C1_witness :
    candInceptionV ∈ ([candInceptionV] : List Candidate) ∧
    seedTitle candInceptionV = some "Inception" ∧
    ((recommend [candInceptionV] (fun _ => [])
        (enrich_movies none (fun _ _ => none) (fun _ => none))).Pairwise
      (fun a b => a.title ≠ b.title) ∧
     recommend [candInceptionV] (fun _ => [])
        (enrich_movies none (fun _ _ => none) (fun _ => none)) ≠ []) :=
  ⟨List.mem_cons_self _ _, rfl,
   C1_amended_title_dedup [candInceptionV] (fun _ => []) none (fun _ _ => none)
     (fun _ => none) candInceptionV "Inception" (List.mem_cons_self _ _) rfl⟩

/-- C2: for a query whose vector stage yields zero results, recommend
returns the empty list, and the instrumented pipeline records zero
graph-expansion calls (empty call list) and zero enrichment calls. -/
theorem C2_empty_vector_short_circuit (expand : String → List Candidate)
    (enrich : List Candidate → List Candidate) :
    recommend [] expand enrich = [] ∧
    recommendTraced [] expand enrich = ([], [], 0) :=
  ⟨rfl, rfl⟩

/-- C3: the pre-enrichment candidate list built by Recommender.recommend
(combinedOf) equals the spec-side ordered description — all vector-stage
candidates first in index rank order, then each seed's graph-expansion
results in seed order and within-traversal order, any already-present
title skipped — and on the concrete scenario (vector results Inception
0.91 and Interstellar 0.87, expansions [Tenet] and [Inception]) it is
exactly [Inception, Interstellar, Tenet] in that order. -/
theorem C3_pre_enrichment_order :
    (∀ (vec : List Candidate) (expand : String → List Candidate),
      combinedOf vec expand = specCombined vec expand) ∧
    combinedOf scenarioVec (expand_via_neo4j scenarioRunQuery) =
      [candInceptionV, candInterstellarV, candTenetG] ∧
    round4 (91/100) = 91/100 ∧ round4 (87/100) = 87/100 :=
  ⟨combinedOf_eq_spec, rfl, round4_91, round4_87⟩

/-- C4 counterexample: with a credential configured and a provider response
whose single entry has vote_average 8, get_trending_movies returns a
candidate whose score is some 8, not null/absent as the claim states. -/
theorem C4_counterexample :
    ∃ c ∈ get_trending_movies (some "key") (fun _ => none)
        (some [trendingDune]) 6, c.score ≠ none := by
  decide

/-- C4 (amended): when a credential is configured and the provider
responds, get_trending_movies returns at most limit candidates, each with
source trending and with score copied from the corresponding provider
entry's vote_average rating — which may be non-null — rather than a null
similarity score. -/
theorem C4_amended_trending (k : Option String) (d : Nat → Option String)
    (entries : List TrendingEntry) (limit : Nat)
    (hk : strTruthy k = true) :
    (get_trending_movies k d (some entries) limit).length ≤ limit ∧
    ∀ c ∈ get_trending_movies k d (some entries) limit,
      c.source = "trending" ∧ ∃ e ∈ entries, c.score = e.vote_average := by
  have hne : ¬ (strTruthy k = false) := by simp [hk]
  simp only [get_trending_movies, if_neg hne]
  constructor
  · rw [List.length_map, List.length_take]
    exact min_le_left _ _
  · intro c hc
    obtain ⟨e, he, rfl⟩ := List.mem_map.mp hc
    exact ⟨rfl, e, List.take_subset _ _ he, rfl⟩

/-- Witness for C4: the amended theorem at a concrete provider response. -/
theorem C4_witness :
    strTruthy (some "key") = true ∧
    ((get_trending_movies (some "key") (fun _ => none)
        (some [trendingDune]) 6).length ≤ 6 ∧
     ∀ c ∈ get_trending_movies (some "key") (fun _ => none)
         (some [trendingDune]) 6,
       c.source = "trending" ∧ ∃ e ∈ [trendingDune], c.score = e.vote_average) :=
  ⟨rfl, C4_amended_trending (some "key") (fun _ => none) [trendingDune] 6 rfl⟩

/-- C5: every candidate emitted by the graph-expansion stage, for any
graph response and any seed, has score null and source graph. -/
theorem C5_graph_candidate_fields
    (runQuery : String → Except String (List GraphRecord)) (t : String)
    (c : Candidate) (hc : c ∈ expand_via_neo4j runQuery t) :
    c.score = none ∧ c.source = "graph" :=
  expand_graph_fields runQuery t c hc

/-- Witness for C5: the theorem applied to a concrete traversal result. -/
theorem C5_witness :
    candTenetG ∈ expand_via_neo4j scenarioRunQuery "Inception" ∧
    (candTenetG.score = none ∧ candTenetG.source = "graph") :=
  ⟨List.mem_cons_self _ _,
   C5_graph_candidate_fields scenarioRunQuery "Inception" candTenetG
     (List.mem_cons_self _ _)⟩

/-- C6: if the traversal for seed s raises an error, that seed contributes
zero candidates (its expansion is the empty list) and recommend returns
exactly what it returns when that seed expands to zero results with all
other seeds untouched — so a single failing seed never aborts the
pipeline. -/
theorem C6_seed_failure_isolated (vec : List Candidate)
    (runQuery : String → Except String (List GraphRecord))
    (enrich : List Candidate → List Candidate) (s : String) (e : String)
    (hfail : runQuery s = Except.error e) :
    expand_via_neo4j runQuery s = [] ∧
    recommend vec (expand_via_neo4j runQuery) enrich =
      recommend vec
        (expand_via_neo4j (Function.update runQuery s (Except.ok []))) enrich := by
  have h1 : expand_via_neo4j runQuery s = [] := by
    unfold expand_via_neo4j
    rw [hfail]
  refine ⟨h1, ?_⟩
  have hfun : expand_via_neo4j runQuery =
      expand_via_neo4j (Function.update runQuery s (Except.ok [])) := by
    funext u
    by_cases hu : u = s
    · subst hu
      rw [h1]
      unfold expand_via_neo4j
      rw [Function.update_same]
      rfl
    · unfold expand_via_neo4j
      rw [Function.update_noteq hu]
  rw [hfun]

/-- Witness for C6: a traversal oracle failing exactly at seed X. -/
theorem C6_witness :
    failingRunQuery "X" = Except.error "connection refused" ∧
    (expand_via_neo4j failingRunQuery "X" = [] ∧
     recommend [candInceptionV] (expand_via_neo4j failingRunQuery) id =
       recommend [candInceptionV]
         (expand_via_neo4j
           (Function.update failingRunQuery "X" (Except.ok []))) id) :=
  ⟨rfl, C6_seed_failure_isolated [candInceptionV] failingRunQuery id "X"
     "connection refused" rfl⟩

/-- C7: with no provider credential configured, enrich_movies returns the
input list unchanged (no poster or external-link key added or altered),
for every input candidate list. -/
theorem C7_no_credential_passthrough (k : Option String)
    (s : Option String → Option String → Option TMDBMatch)
    (d : Nat → Option String) (movies : List Candidate)
    (hk : strTruthy k = false) :
    enrich_movies k s d movies = movies := by
  unfold enrich_movies
  rw [if_pos hk]

/-- Witness for C7: no api key, concrete input list. -/
theorem C7_witness :
    strTruthy none = false ∧
    enrich_movies none (fun _ _ => none) (fun _ => none) [candInceptionV] =
      [candInceptionV] :=
  ⟨rfl, C7_no_credential_passthrough none (fun _ _ => none) (fun _ => none)
    [candInceptionV] rfl⟩

/-- C8: for every input list (including already-enriched or partially-null
candidates), enrich_movies returns a list of the same length with the
candidates in the same order: positionally every field other than the two
enrichment keys is unchanged. -/
theorem C8_enrich_length_order (k : Option String)
    (s : Option String → Option String → Option TMDBMatch)
    (d : Nat → Option String) (ms : List Candidate) :
    (enrich_movies k s d ms).length = ms.length ∧
    (enrich_movies k s d ms).map coreFields = ms.map coreFields :=
  ⟨enrich_length k s d ms, enrich_map_coreFields k s d ms⟩

/-- C9: assuming the index returns cosine similarities in [-1, 1], every
vector-origin candidate in the pipeline output carries a score that lies
in [-1, 1] and is an integer multiple of 1/10000 (rounded to exactly 4
decimal places). -/
theorem C9_vector_score_range (hits : List SearchHit)
    (runQuery : String → Except String (List GraphRecord)) (k : Option String)
    (s : Option String → Option String → Option TMDBMatch)
    (d : Nat → Option String)
    (hrange : ∀ h ∈ hits, -1 ≤ h.score ∧ h.score ≤ 1) :
    ∀ c ∈ recommend (search_qdrant hits) (expand_via_neo4j runQuery)
        (enrich_movies k s d),
      c.source = "vector" →
      ∃ q : ℚ, c.score = some q ∧ -1 ≤ q ∧ q ≤ 1 ∧
        ∃ n : ℤ, q = (n : ℚ) / 10000 := by
  intro c hc hsrc
  unfold recommend at hc
  split at hc
  · simp at hc
  · obtain ⟨c2, hc2, hcf⟩ := enrich_mem k s d _ c hc
    have hc2m := combinedOf_mem _ _ _ hc2
    rcases List.mem_append.mp hc2m with hv | hg
    · unfold search_qdrant at hv
      obtain ⟨hit, hhit, rfl⟩ := List.mem_map.mp hv
      have hsc : c.score = some (round4 hit.score) := score_of_coreFields hcf
      obtain ⟨hb1, hb2⟩ := round4_bounds (hrange hit hhit).1 (hrange hit hhit).2
      exact ⟨round4 hit.score, hsc, hb1, hb2, round4_den hit.score⟩
    · exfalso
      obtain ⟨u, _, hmem⟩ := List.mem_flatMap.mp hg
      have hgf := expand_graph_fields runQuery u c2 hmem
      rw [source_of_coreFields hcf, hgf.2] at hsrc
      exact absurd hsrc (by decide)

/-- Witness for C9: one in-range hit flowing through the whole pipeline. -/
theorem C9_witness :
    (∀ h ∈ [hitInception], -1 ≤ h.score ∧ h.score ≤ 1) ∧
    candInceptionV ∈ recommend (search_qdrant [hitInception])
      (expand_via_neo4j scenarioRunQuery)
      (enrich_movies none (fun _ _ => none) (fun _ => none)) ∧
    candInceptionV.source = "vector" ∧
    (∃ q : ℚ, candInceptionV.score = some q ∧ -1 ≤ q ∧ q ≤ 1 ∧
      ∃ n : ℤ, q = (n : ℚ) / 10000) := by
  have hrange : ∀ h ∈ [hitInception], -1 ≤ h.score ∧ h.score ≤ 1 := by
    intro h hh
    rw [List.mem_singleton.mp hh]
    constructor
    · norm_num [hitInception]
    · norm_num [hitInception]
  exact ⟨hrange, List.mem_cons_self _ _, rfl,
    C9_vector_score_range [hitInception] scenarioRunQuery none
      (fun _ _ => none) (fun _ => none) hrange candInceptionV
      (List.mem_cons_self _ _) rfl⟩

/-- C10: enrichment changes at most the poster_url and imdb_url keys:
positionally, title, genre, director, year, score and source of every
candidate are identical between input and output, whether or not a
provider match was found. -/
theorem C10_enrich_frame (k : Option String)
    (s : Option String → Option String → Option TMDBMatch)
    (d : Nat → Option String) (ms : List Candidate) (i : Nat)
    (hi : i < ms.length) (ho : i < (enrich_movies k s d ms).length) :
    ((enrich_movies k s d ms).get ⟨i, ho⟩).title = (ms.get ⟨i, hi⟩).title ∧
    ((enrich_movies k s d ms).get ⟨i, ho⟩).genre = (ms.get ⟨i, hi⟩).genre ∧
    ((enrich_movies k s d ms).get ⟨i, ho⟩).director = (ms.get ⟨i, hi⟩).director ∧
    ((enrich_movies k s d ms).get ⟨i, ho⟩).year = (ms.get ⟨i, hi⟩).year ∧
    ((enrich_movies k s d ms).get ⟨i, ho⟩).score = (ms.get ⟨i, hi⟩).score ∧
    ((enrich_movies k s d ms).get ⟨i, ho⟩).source = (ms.get ⟨i, hi⟩).source := by
  have hcf := coreFields_get_of_map_eq _ _ (enrich_map_coreFields k s d ms) i ho hi
  exact ⟨congrArg (fun x => x.1) hcf, congrArg (fun x => x.2.1) hcf,
    congrArg (fun x => x.2.2.1) hcf, congrArg (fun x => x.2.2.2.1) hcf,
    congrArg (fun x => x.2.2.2.2.1) hcf, congrArg (fun x => x.2.2.2.2.2) hcf⟩

/-- Witness for C10: a configured credential and a concrete candidate. -/
theorem C10_witness :
    ((enrich_movies (some "key") (fun _ _ => none) (fun _ => none)
        [candInceptionV]).get ⟨0, by decide⟩).title =
      (([candInceptionV] : List Candidate).get ⟨0, by decide⟩).title ∧
    ((enrich_movies (some "key") (fun _ _ => none) (fun _ => none)
        [candInceptionV]).get ⟨0, by decide⟩).genre =
      (([candInceptionV] : List Candidate).get ⟨0, by decide⟩).genre ∧
    ((enrich_movies (some "key") (fun _ _ => none) (fun _ => none)
        [candInceptionV]).get ⟨0, by decide⟩).director =
      (([candInceptionV] : List Candidate).get ⟨0, by decide⟩).director ∧
    ((enrich_movies (some "key") (fun _ _ => none) (fun _ => none)
        [candInceptionV]).get ⟨0, by decide⟩).year =
      (([candInceptionV] : List Candidate).get ⟨0, by decide⟩).year ∧
    ((enrich_movies (some "key") (fun _ _ => none) (fun _ => none)
        [candInceptionV]).get ⟨0, by decide⟩).score =
      (([candInceptionV] : List Candidate).get ⟨0, by decide⟩).score ∧
    ((enrich_movies (some "key") (fun _ _ => none) (fun _ => none)
        [candInceptionV]).get ⟨0, by decide⟩).source =
      (([candInceptionV] : List Candidate).get ⟨0, by decide⟩).source :=
  C10_enrich_frame (some "key") (fun _ _ => none) (fun _ => none)
    [candInceptionV] 0 (by decide) (by decide)

end MovieEngine
